import Mathlib

/-!
Shallow embedding of `batch_processor.py` (pdf-narrator): the `JobState`
dataclass with its dict (de)serialization, the `StateManager` persistence
layer, the streaming `AudioCombiner.combine_audio_files` routine, and the
`AudiobookProcessor.process_pdf` / `process_batch` orchestration, together
with theorems settling the spec claims about them.

Modelling conventions:
- Python exceptions are `Except String`; a caught exception is a `match` on
  the `Except` value.
- File names are lists of code points (`List Nat`); Python compares path
  strings lexicographically by code point.
- The state file, the output artifact and the external collaborators
  (`extract_book`, `generate_audiobooks_kokoro`) are modelled by explicit
  world/environment records; nominal persistence I/O succeeds.
-/

/-- Field values appearing in the dict produced by `dataclasses.asdict` on
`JobState`: strings, booleans, integers and `None`. -/
inductive JValue where
  | s : String → JValue
  | b : Bool → JValue
  | n : Nat → JValue
  | nullv : JValue
deriving DecidableEq, Repr

/-- `JobState` dataclass: state tracking for audiobook generation jobs
(`batch_processor.py` lines 44-63). -/
structure JobState where
  input_path : String
  output_path : String
  status : String
  started_at : Option String := none
  completed_at : Option String := none
  error : Option String := none
  extraction_done : Bool := false
  generation_done : Bool := false
  combination_done : Bool := false
  retry_count : Nat := 0
deriving DecidableEq, Repr

/-- An `Optional[str]` field serializes to a string or JSON `null`. -/
def optStr : Option String → JValue
  | some v => JValue.s v
  | none => JValue.nullv

/-- `JobState.to_dict`, i.e. `dataclasses.asdict(self)`: the fields in
declaration order, keyed by field name. -/
def JobState.to_dict (j : JobState) : List (String × JValue) :=
  [("input_path", JValue.s j.input_path),
   ("output_path", JValue.s j.output_path),
   ("status", JValue.s j.status),
   ("started_at", optStr j.started_at),
   ("completed_at", optStr j.completed_at),
   ("error", optStr j.error),
   ("extraction_done", JValue.b j.extraction_done),
   ("generation_done", JValue.b j.generation_done),
   ("combination_done", JValue.b j.combination_done),
   ("retry_count", JValue.n j.retry_count)]

/-- Read a required string-valued keyword argument from the dict. -/
def getStr (d : List (String × JValue)) (k : String) : Option String :=
  match d.lookup k with
  | some (JValue.s v) => some v
  | _ => none

/-- Read a required string-or-null keyword argument from the dict. -/
def getOptStr (d : List (String × JValue)) (k : String) : Option (Option String) :=
  match d.lookup k with
  | some (JValue.s v) => some (some v)
  | some JValue.nullv => some none
  | _ => none

/-- Read a required boolean keyword argument from the dict. -/
def getBool (d : List (String × JValue)) (k : String) : Option Bool :=
  match d.lookup k with
  | some (JValue.b v) => some v
  | _ => none

/-- Read a required integer keyword argument from the dict. -/
def getNat (d : List (String × JValue)) (k : String) : Option Nat :=
  match d.lookup k with
  | some (JValue.n v) => some v
  | _ => none

/-- `JobState.from_dict(data)`, i.e. `cls(**data)`: each field is bound from
the keyword of its name; a missing or ill-typed field raises (`none`). -/
def JobState.from_dict (d : List (String × JValue)) : Option JobState :=
  match getStr d "input_path", getStr d "output_path", getStr d "status",
        getOptStr d "started_at", getOptStr d "completed_at", getOptStr d "error",
        getBool d "extraction_done", getBool d "generation_done",
        getBool d "combination_done", getNat d "retry_count" with
  | some ip, some op, some st, some sa, some ca, some er,
    some ed, some gd, some cd, some rc =>
      some { input_path := ip, output_path := op, status := st,
             started_at := sa, completed_at := ca, error := er,
             extraction_done := ed, generation_done := gd,
             combination_done := cd, retry_count := rc }
  | _, _, _, _, _, _, _, _, _, _ => none

/-- The on-disk state directory of `StateManager`: one serialized dict per
job id (`{job_id}.json`); the head binding for a key is the current file. -/
def StateStore := List (String × List (String × JValue))

/-- `StateManager.save_state`: serializes the job and overwrites the file
keyed by the job id. -/
def save_state (store : StateStore) (jobId : String) (j : JobState) : StateStore :=
  (jobId, j.to_dict) :: store

/-- `StateManager.load_state`: reads the file for the job id and
deserializes it; absence or a malformed file yields `none`. -/
def load_state (store : StateStore) (jobId : String) : Option JobState :=
  match List.lookup jobId store with
  | some d => JobState.from_dict d
  | none => none

deriving instance DecidableEq for Except

/-- One WAV segment file as the combiner sees it: its filename (code
points), the result of the header read `sf.info` (sample rate, frame
count — an unreadable or corrupt file raises), and the result of the full
decode `sf.read` (the sample data — may also raise). -/
structure SegFile where
  name : List Nat
  infoResult : Except String (Nat × Nat)
  readResult : Except String (List Int)
deriving DecidableEq, Repr

/-- Lexicographic code-point comparison of filenames, as Python `sorted`
compares path strings. -/
def lexLe : List Nat → List Nat → Bool
  | [], _ => true
  | _ :: _, [] => false
  | a :: as, b :: bs => if a < b then true else if b < a then false else lexLe as bs

/-- Filename ordering on segment files. -/
def nameLe (a b : SegFile) : Prop := lexLe a.name b.name = true

instance : DecidableRel nameLe := fun x y => inferInstanceAs (Decidable (lexLe x.name y.name = true))

/-- `sorted(audio_dir.glob("*.wav"))`: the directory listing in
lexicographic filename order. -/
def sortedSegs (files : List SegFile) : List SegFile :=
  List.insertionSort nameLe files

/-- First pass of `combine_audio_files` (lines 145-154): read every
header, adopt the first file's sample rate as expected, raise on any later
mismatch, and accumulate the total frame count. -/
def pass1Go : List SegFile → Option Nat → Nat → Except String (Option Nat × Nat)
  | [], sr, tot => Except.ok (sr, tot)
  | f :: fs, sr, tot =>
    match f.infoResult with
    | Except.error e => Except.error e
    | Except.ok (r, frames) =>
      match sr with
      | none => pass1Go fs (some r) (tot + frames)
      | some s =>
        if r = s then pass1Go fs (some s) (tot + frames)
        else Except.error "Sample rate mismatch"

/-- The progress callback invocation: absent callbacks succeed trivially,
a present callback may raise. -/
def cbCall (cb : Option (Nat → Nat → Except String Unit)) (i total : Nat) :
    Except String Unit :=
  match cb with
  | none => Except.ok ()
  | some c => c i total

/-- Decoding one group of files in order (lines 183-189); the first failing
`sf.read` raises. -/
def readGroup : List SegFile → Except String (List (List Int))
  | [] => Except.ok []
  | f :: fs =>
    match f.readResult with
    | Except.error e => Except.error e
    | Except.ok d =>
      match readGroup fs with
      | Except.error e => Except.error e
      | Except.ok ds => Except.ok (d :: ds)

/-- Second pass of `combine_audio_files` (lines 169-200) with group size
`csPred + 1`: per group, invoke the callback, decode the group, append the
concatenated buffer to the already-open output. On a raised exception the
samples written so far remain in the (partial) output. -/
def pass2 (csPred total : Nat) (cb : Option (Nat → Nat → Except String Unit)) :
    List SegFile → Nat → List Int → Bool × List Int
  | [], _, acc => (true, acc)
  | f :: fs, i, acc =>
    match cbCall cb i total with
    | Except.error _ => (false, acc)
    | Except.ok _ =>
      match readGroup (f :: fs.take csPred) with
      | Except.error _ => (false, acc)
      | Except.ok ds => pass2 csPred total cb (fs.drop csPred) (i + (csPred + 1)) (acc ++ ds.flatten)
termination_by l => l.length
decreasing_by simp [List.length_drop]; omega

/-- Result of `combine_audio_files`: the returned boolean and the output
file (`none` when the output path was never opened, `some samples`
otherwise — possibly partial on failure). -/
structure CombineResult where
  ok : Bool
  output : Option (List Int)
deriving DecidableEq, Repr

/-- `AudioCombiner.combine_audio_files` (lines 114-208) over the listed
segment files, with group size `chunkSize`. Zero segments fail before the
output is opened; any first-pass exception (unreadable header, sample-rate
mismatch, zero sample rate making the duration computation divide by zero)
fails with no output created; the output file exists from the moment the
streaming pass opens it; any second-pass exception yields failure with the
partial output left behind. A zero `chunkSize` makes `range` raise after
the output is opened. This function never raises: every branch returns a
`CombineResult`. -/
def combine_audio_files (chunkSize : Nat) (files : List SegFile)
    (cb : Option (Nat → Nat → Except String Unit)) : CombineResult :=
  match sortedSegs files with
  | [] => { ok := false, output := none }
  | f :: fs =>
    match pass1Go (f :: fs) none 0 with
    | Except.error _ => { ok := false, output := none }
    | Except.ok (none, _) => { ok := false, output := none }
    | Except.ok (some sr, _total) =>
      if sr = 0 then { ok := false, output := none }
      else if chunkSize = 0 then { ok := false, output := some [] }
      else
        let r := pass2 (chunkSize - 1) (f :: fs).length cb (f :: fs) 0 []
        { ok := r.1, output := some r.2 }

/-- Store/collaborator operations performed by `process_pdf`, in order:
state loads, saves (with the record written), state deletes, and the
invocations of the Extractor, the Synthesizer and the Combiner. -/
inductive Op where
  | load : Op
  | save : JobState → Op
  | delete : Op
  | callExtractor : Op
  | callSynthesizer : Op
  | callCombiner : Op
deriving DecidableEq, Repr

/-- The environment of one `process_pdf` invocation: the resolved input
and derived output paths, the outcome each external collaborator would
produce if invoked, whether a failed combine leaves a non-empty partial
output behind, and the two wall-clock readings taken for `started_at` and
`completed_at`. -/
structure Env where
  inputPath : String
  outputPath : String
  extractResult : Except String Unit
  generateResult : Except String Unit
  combineResult : Bool
  combineLeftOutput : Bool
  nowStart : String
  nowEnd : String

/-- The observable world of one input: whether its final output file
exists with non-zero size, and the job record currently persisted for it
(if any). -/
structure World where
  outputNonEmpty : Bool
  stored : Option JobState
deriving DecidableEq, Repr

/-- The fresh `JobState` created when no prior record is resumed
(lines 275-280). -/
def freshJob (env : Env) : JobState :=
  { input_path := env.inputPath, output_path := env.outputPath,
    status := "pending", started_at := some env.nowStart }

/-- `job = load_state(...); job if job and resume else fresh`
(lines 271-280). -/
def initialJob (env : Env) (w : World) (resume : Bool) : JobState :=
  match w.stored, resume with
  | some j, true => j
  | _, _ => freshJob env

/-- The running state inside the `try` block of `process_pdf`: the
in-memory job record, the persisted record, whether the output file is
now non-empty, and the operations performed so far. -/
structure PState where
  job : JobState
  stored : Option JobState
  outNonEmpty : Bool
  ops : List Op
deriving Repr

/-- Phase 1 of `process_pdf` (lines 311-328): if extraction is not yet
done and not skipped, persist the write-ahead marker, invoke the
Extractor, and on success set the completion flag and persist. A raised
exception carries the state at the raise point. -/
def phaseExtract (env : Env) (skipE : Bool) (s : PState) : Except (String × PState) PState :=
  if !s.job.extraction_done && !skipE then
    let j1 := { s.job with status := "extracting" }
    let s1 : PState := { job := j1, stored := some j1, outNonEmpty := s.outNonEmpty,
                         ops := s.ops ++ [Op.save j1, Op.callExtractor] }
    match env.extractResult with
    | Except.error e => Except.error (e, s1)
    | Except.ok _ =>
      let j2 := { j1 with extraction_done := true }
      Except.ok { job := j2, stored := some j2, outNonEmpty := s1.outNonEmpty,
                  ops := s1.ops ++ [Op.save j2] }
  else Except.ok s

/-- Phase 2 of `process_pdf` (lines 331-349): analogous to phase 1 with
the Synthesizer collaborator. -/
def phaseGenerate (env : Env) (skipG : Bool) (s : PState) : Except (String × PState) PState :=
  if !s.job.generation_done && !skipG then
    let j1 := { s.job with status := "generating" }
    let s1 : PState := { job := j1, stored := some j1, outNonEmpty := s.outNonEmpty,
                         ops := s.ops ++ [Op.save j1, Op.callSynthesizer] }
    match env.generateResult with
    | Except.error e => Except.error (e, s1)
    | Except.ok _ =>
      let j2 := { j1 with generation_done := true }
      Except.ok { job := j2, stored := some j2, outNonEmpty := s1.outNonEmpty,
                  ops := s1.ops ++ [Op.save j2] }
  else Except.ok s

/-- Phase 3 of `process_pdf` (lines 352-370): if combination is not yet
done, persist the marker and invoke the Combiner; a `False` return raises
`RuntimeError("Audio combination failed")` (a failed combine may leave a
partial non-empty output); on success the output exists non-empty and the
record is marked combined/completed with a completion timestamp. -/
def phaseCombine (env : Env) (s : PState) : Except (String × PState) PState :=
  if !s.job.combination_done then
    let j1 := { s.job with status := "combining" }
    let s1 : PState := { job := j1, stored := some j1, outNonEmpty := s.outNonEmpty,
                         ops := s.ops ++ [Op.save j1, Op.callCombiner] }
    if env.combineResult = false then
      Except.error ("Audio combination failed",
        { s1 with outNonEmpty := env.combineLeftOutput })
    else
      let j2 := { j1 with
                  combination_done := true
                  status := "completed"
                  completed_at := some env.nowEnd }
      Except.ok { job := j2, stored := some j2, outNonEmpty := true,
                  ops := s1.ops ++ [Op.save j2] }
  else Except.ok s

/-- The uniform `except` handler of `process_pdf` (lines 378-382): mark
the record failed, record the error text, bump the retry counter. -/
def failedUpdate (j : JobState) (e : String) : JobState :=
  { j with status := "failed", error := some e, retry_count := j.retry_count + 1 }

/-- Result of one `process_pdf` invocation: the returned boolean, the
world afterwards, and the store/collaborator operations performed. -/
structure PdfResult where
  ok : Bool
  world : World
  ops : List Op
deriving Repr

/-- The tail of the `except` branch of `process_pdf` (lines 378-396):
persist the failed record and return `False`. -/
def pdfFailure (es : String × PState) : PdfResult :=
  let jf := failedUpdate es.2.job es.1
  { ok := false,
    world := { outputNonEmpty := es.2.outNonEmpty, stored := some jf },
    ops := es.2.ops ++ [Op.save jf] }

/-- `AudiobookProcessor.process_pdf` (lines 240-396). The shortcut
returns success without touching the state store or any collaborator when
the output already exists non-empty; otherwise the prior record is loaded
(resumed only when `resume` is set), the three phases run in order, a
fully successful run deletes the record, and any phase failure persists
the failed record and returns `False` without re-raising. -/
def process_pdf (env : Env) (w : World) (resume skipE skipG : Bool) : PdfResult :=
  if w.outputNonEmpty then
    { ok := true, world := w, ops := [] }
  else
    let s0 : PState := { job := initialJob env w resume, stored := w.stored,
                         outNonEmpty := w.outputNonEmpty, ops := [Op.load] }
    match phaseExtract env skipE s0 with
    | Except.error es => pdfFailure es
    | Except.ok s1 =>
      match phaseGenerate env skipG s1 with
      | Except.error es => pdfFailure es
      | Except.ok s2 =>
        match phaseCombine env s2 with
        | Except.error es => pdfFailure es
        | Except.ok s3 =>
          { ok := true, world := { outputNonEmpty := s3.outNonEmpty, stored := none },
            ops := s3.ops ++ [Op.delete] }

/-- Aggregate statistics dictionary built by `process_batch`
(lines 411-417, 442): exactly the keys the code puts into `stats`. The
success rate is only formatted into a log line, never stored here. -/
structure BatchStats where
  total : Nat
  completed : Nat
  failed : Nat
  skipped : Nat
  started_at : String
  completed_at : String
deriving DecidableEq, Repr

/-- The per-item loop of `process_batch` (lines 421-440) over the outcome
of each item (`Except.error` for an exception escaping `process_pdf`,
otherwise its boolean): returns (completed, failed, items invoked). -/
def batchLoop (continueOnError : Bool) :
    List (Except String Bool) → Nat → Nat → Nat → Nat × Nat × Nat
  | [], comp, fail, proc => (comp, fail, proc)
  | item :: rest, comp, fail, proc =>
    match item with
    | Except.ok true => batchLoop continueOnError rest (comp + 1) fail (proc + 1)
    | Except.ok false =>
      if continueOnError then batchLoop continueOnError rest comp (fail + 1) (proc + 1)
      else (comp, fail + 1, proc + 1)
    | Except.error _ =>
      if continueOnError then batchLoop continueOnError rest comp (fail + 1) (proc + 1)
      else (comp, fail + 1, proc + 1)

/-- `AudiobookProcessor.process_batch` (lines 398-453): runs the loop,
then prints the summary whose success-rate line computes
`completed / total`; on an empty batch that division raises
`ZeroDivisionError` out of the function, so the statistics are only
returned (paired with the number of items invoked) for a non-empty
batch. -/
def process_batch (items : List (Except String Bool)) (continueOnError : Bool)
    (t1 t2 : String) : Except String (BatchStats × Nat) :=
  let r := batchLoop continueOnError items 0 0 0
  let stats : BatchStats := { total := items.length, completed := r.1, failed := r.2.1,
                              skipped := 0, started_at := t1, completed_at := t2 }
  if items.length = 0 then
    Except.error "ZeroDivisionError: division by zero"
  else Except.ok (stats, r.2.2)

/-! ### Combiner lemmas -/

/-- The decoded samples of a segment; `[]` stands in for a file whose read
raises and is only used where every read is known to succeed. -/
def readD (f : SegFile) : List Int :=
  match f.readResult with
  | Except.ok d => d
  | Except.error _ => []

/-- The header frame count of a segment; `0` stands in for an unreadable
header and is only used where every header read is known to succeed. -/
def framesD (f : SegFile) : Nat :=
  match f.infoResult with
  | Except.ok p => p.2
  | Except.error _ => 0

lemma flatMap_eq_flatten_map (l : List SegFile) (g : SegFile → List Int) :
    l.flatMap g = (l.map g).flatten := by
  induction l with
  | nil => rfl
  | cons a t ih => simp [List.flatMap_cons, ih]

lemma length_flatMap_sum (l : List SegFile) (g : SegFile → List Int) :
    (l.flatMap g).length = (l.map (fun f => (g f).length)).sum := by
  induction l with
  | nil => rfl
  | cons a t ih => simp [List.flatMap_cons, ih]

lemma readGroup_ok {l : List SegFile} {ds : List (List Int)}
    (h : readGroup l = Except.ok ds) :
    ds = l.map readD ∧ ∀ f ∈ l, ∃ d, f.readResult = Except.ok d := by
  induction l generalizing ds with
  | nil =>
    simp only [readGroup] at h
    cases h
    simp
  | cons f fs ih =>
    simp only [readGroup] at h
    cases hr : f.readResult with
    | error e => rw [hr] at h; cases h
    | ok d =>
      rw [hr] at h
      cases hg : readGroup fs with
      | error e => rw [hg] at h; cases h
      | ok ds2 =>
        rw [hg] at h
        cases h
        rcases ih hg with ⟨hmap, hmem⟩
        refine ⟨by simp [hmap, readD, hr], ?_⟩
        intro g hgmem
        rcases List.mem_cons.mp hgmem with rfl | hin
        · exact ⟨d, hr⟩
        · exact hmem g hin

lemma pass1Go_ok_frames {l : List SegFile} {sr0 : Option Nat} {t0 : Nat}
    {srO : Option Nat} {tot : Nat}
    (h : pass1Go l sr0 t0 = Except.ok (srO, tot)) :
    tot = t0 + (l.map framesD).sum ∧ ∀ f ∈ l, ∃ p, f.infoResult = Except.ok p := by
  induction l generalizing sr0 t0 with
  | nil =>
    simp only [pass1Go] at h
    cases h
    simp
  | cons f fs ih =>
    rcases hi : f.infoResult with e | ⟨r, k⟩
    · simp [pass1Go, hi] at h
    · cases sr0 with
      | none =>
        simp only [pass1Go, hi] at h
        rcases ih h with ⟨htot, hmem⟩
        refine ⟨?_, ?_⟩
        · simp only [List.map_cons, List.sum_cons, framesD, hi]
          omega
        · intro g hg
          rcases List.mem_cons.mp hg with rfl | hin
          · exact ⟨(r, k), hi⟩
          · exact hmem g hin
      | some s =>
        simp only [pass1Go, hi] at h
        by_cases hrs : r = s
        · rw [if_pos hrs] at h
          rcases ih h with ⟨htot, hmem⟩
          refine ⟨?_, ?_⟩
          · simp only [List.map_cons, List.sum_cons, framesD, hi]
            omega
          · intro g hg
            rcases List.mem_cons.mp hg with rfl | hin
            · exact ⟨(r, k), hi⟩
            · exact hmem g hin
        · rw [if_neg hrs] at h
          cases h

lemma pass1Go_rate {l : List SegFile} {s t : Nat} {srO : Option Nat} {tot : Nat}
    (h : pass1Go l (some s) t = Except.ok (srO, tot)) :
    ∀ f ∈ l, ∃ k, f.infoResult = Except.ok (s, k) := by
  induction l generalizing t with
  | nil => intro f hf; cases hf
  | cons f fs ih =>
    rcases hi : f.infoResult with e | ⟨r, k⟩
    · simp [pass1Go, hi] at h
    · simp only [pass1Go, hi] at h
      by_cases hrs : r = s
      · rw [if_pos hrs] at h
        intro g hg
        rcases List.mem_cons.mp hg with rfl | hin
        · exact ⟨k, by rw [hi, hrs]⟩
        · exact ih h g hin
      · rw [if_neg hrs] at h
        cases h

lemma pass1Go_head_rate {f : SegFile} {fs : List SegFile} {srO : Option Nat} {tot : Nat}
    (h : pass1Go (f :: fs) none 0 = Except.ok (srO, tot)) :
    ∃ r k, f.infoResult = Except.ok (r, k) ∧
      ∀ g ∈ fs, ∃ k2, g.infoResult = Except.ok (r, k2) := by
  rcases hi : f.infoResult with e | ⟨r, k⟩
  · simp [pass1Go, hi] at h
  · simp only [pass1Go, hi] at h
    exact ⟨r, k, rfl, pass1Go_rate h⟩

lemma pass1Go_rates_eq {l : List SegFile} {srO : Option Nat} {tot : Nat}
    (h : pass1Go l none 0 = Except.ok (srO, tot)) :
    ∀ a ∈ l, ∀ b ∈ l, ∀ ra ka rb kb, a.infoResult = Except.ok (ra, ka) →
      b.infoResult = Except.ok (rb, kb) → ra = rb := by
  cases l with
  | nil => intro a ha; cases ha
  | cons f fs =>
    rcases pass1Go_head_rate h with ⟨r, k, hf, hrest⟩
    have hall : ∀ a ∈ f :: fs, ∀ ra ka, a.infoResult = Except.ok (ra, ka) → ra = r := by
      intro a ha ra ka hia
      rcases List.mem_cons.mp ha with rfl | hin
      · rw [hf] at hia
        cases hia
        rfl
      · rcases hrest a hin with ⟨k2, hk2⟩
        rw [hk2] at hia
        cases hia
        rfl
    intro a ha b hb ra ka rb kb hia hib
    rw [hall a ha ra ka hia, hall b hb rb kb hib]

lemma pass2_ok {csP total : Nat} {cb : Option (Nat → Nat → Except String Unit)}
    {l : List SegFile} {i : Nat} {acc out : List Int}
    (h : pass2 csP total cb l i acc = (true, out)) :
    out = acc ++ l.flatMap readD ∧
    (∀ f ∈ l, ∃ d, f.readResult = Except.ok d) ∧
    (∀ k, k * (csP + 1) < l.length → cbCall cb (i + k * (csP + 1)) total = Except.ok ()) := by
  induction l, i, acc using pass2.induct csP total cb with
  | case1 i acc =>
    simp only [pass2] at h
    cases h
    refine ⟨by simp, by simp, ?_⟩
    intro k hk
    simp at hk
  | case2 f fs i acc e heq =>
    simp [pass2, heq] at h
  | case3 f fs i acc u hcb e heq =>
    simp [pass2, hcb, heq] at h
  | case4 f fs i acc u hcb ds hread ih =>
    cases u
    simp only [pass2, hcb, hread] at h
    rcases ih h with ⟨hout, hmem, hcbs⟩
    rcases readGroup_ok hread with ⟨hds, hgmem⟩
    have hsplit : (f :: fs).flatMap readD =
        (f :: List.take csP fs).flatMap readD ++ (List.drop csP fs).flatMap readD := by
      simp only [List.flatMap_cons, List.append_assoc]
      rw [← List.flatMap_append, List.take_append_drop]
    refine ⟨?_, ?_, ?_⟩
    · rw [hout, hds, ← flatMap_eq_flatten_map, hsplit, List.append_assoc]
    · intro g hg
      have hcase : g ∈ (f :: List.take csP fs) ∨ g ∈ List.drop csP fs := by
        rcases List.mem_cons.mp hg with rfl | hin
        · exact Or.inl (List.mem_cons_self _ _)
        · have hin2 : g ∈ List.take csP fs ++ List.drop csP fs := by
            rw [List.take_append_drop]
            exact hin
          rcases List.mem_append.mp hin2 with h1 | h2
          · exact Or.inl (List.mem_cons_of_mem _ h1)
          · exact Or.inr h2
      rcases hcase with h1 | h2
      · exact hgmem g h1
      · exact hmem g h2
    · intro k hk
      cases k with
      | zero => simpa using hcb
      | succ k2 =>
        have hexp : (k2 + 1) * (csP + 1) = k2 * (csP + 1) + (csP + 1) := by ring
        have hlt : k2 * (csP + 1) < (List.drop csP fs).length := by
          rw [List.length_drop]
          rw [hexp] at hk
          simp only [List.length_cons] at hk
          omega
        have hres := hcbs k2 hlt
        have harith : i + (csP + 1) + k2 * (csP + 1) = i + (k2 + 1) * (csP + 1) := by ring
        rw [harith] at hres
        exact hres

/-- Claim C2: for every non-empty list of same-rate segments, whenever
`combine_audio_files` returns success the output equals the segments'
sample data concatenated in lexicographic filename order, and its total
frame count equals the sum of the individual segment frame counts — an
expression independent of the group size `chunkSize`, so the total is the
same for every `chunkSize ≥ 1` that succeeds. -/
theorem combine_success_frame_sum (cs : Nat) (files : List SegFile)
    (cb : Option (Nat → Nat → Except String Unit)) (rate : Nat)
    (hcs : 1 ≤ cs)
    (hwf : ∀ f ∈ files, ∃ d, f.readResult = Except.ok d ∧
      f.infoResult = Except.ok (rate, d.length))
    (hok : (combine_audio_files cs files cb).ok = true) :
    (combine_audio_files cs files cb).output = some ((sortedSegs files).flatMap readD) ∧
    ((sortedSegs files).flatMap readD).length = (files.map framesD).sum := by
  have hperm : (sortedSegs files).Perm files := List.perm_insertionSort nameLe files
  have hlen : ((sortedSegs files).flatMap readD).length = (files.map framesD).sum := by
    rw [length_flatMap_sum]
    have hcongr : (sortedSegs files).map (fun f => (readD f).length) =
        (sortedSegs files).map framesD := by
      apply List.map_congr_left
      intro g hg
      rcases hwf g (hperm.mem_iff.mp hg) with ⟨d, hrd, hinfo⟩
      simp [readD, framesD, hrd, hinfo]
    rw [hcongr]
    exact List.Perm.sum_eq (List.Perm.map framesD hperm)
  refine ⟨?_, hlen⟩
  rcases hs : sortedSegs files with _ | ⟨f, fs⟩
  · simp [combine_audio_files, hs] at hok
  · simp only [combine_audio_files, hs] at hok ⊢
    rcases hp : pass1Go (f :: fs) none 0 with e | ⟨osr, tot⟩
    · simp only [hp] at hok
      simp at hok
    · simp only [hp] at hok ⊢
      cases osr with
      | none => simp at hok
      | some sr =>
        by_cases hsr : sr = 0
        · simp [hsr] at hok
        · have hcs0 : ¬ cs = 0 := by omega
          simp only [if_neg hsr, if_neg hcs0] at hok ⊢
          rcases hpp : pass2 (cs - 1) (f :: fs).length cb (f :: fs) 0 [] with ⟨b, o⟩
          rw [hpp] at hok
          have hb : b = true := hok
          subst hb
          rcases pass2_ok hpp with ⟨hout, hreads, hcbs⟩
          simp [hout]

/-- Claim C3: with zero segment files, and likewise whenever two segments
report different sample rates (in particular when a later segment's rate
differs from the first's), `combine_audio_files` returns failure and the
output file is never created: the operation aborts before any byte of
output is written. -/
theorem combine_validation_guard (cs : Nat) (files : List SegFile)
    (cb : Option (Nat → Nat → Except String Unit)) :
    (files = [] → combine_audio_files cs files cb = { ok := false, output := none }) ∧
    (∀ f ∈ files, ∀ g ∈ files, ∀ rf kf rg kg,
      f.infoResult = Except.ok (rf, kf) → g.infoResult = Except.ok (rg, kg) → rf ≠ rg →
      combine_audio_files cs files cb = { ok := false, output := none }) := by
  constructor
  · intro hnil
    subst hnil
    rfl
  · intro f hf g hg rf kf rg kg hif hig hne
    have hperm : (sortedSegs files).Perm files := List.perm_insertionSort nameLe files
    rcases hs : sortedSegs files with _ | ⟨f0, fs0⟩
    · simp [combine_audio_files, hs]
    · rw [hs] at hperm
      simp only [combine_audio_files, hs]
      rcases hp : pass1Go (f0 :: fs0) none 0 with e | ⟨osr, tot⟩
      · simp [hp]
      · exfalso
        have hfmem : f ∈ f0 :: fs0 := hperm.mem_iff.mpr hf
        have hgmem : g ∈ f0 :: fs0 := hperm.mem_iff.mpr hg
        exact hne (pass1Go_rates_eq hp f hfmem g hgmem rf kf rg kg hif hig)

/-- Claim C4: `combine_audio_files` total-function contract — it returns a
`CombineResult` on every input (missing directory = empty listing,
unreadable headers, corrupt reads, raising callback) rather than raising.
Success requires every header read and every sample read to have
succeeded and the progress callback to have answered the first group
without raising; contrapositively, any such exception during either pass
(including a raising callback) makes the combine return failure. -/
theorem combine_failure_contract (cs : Nat) (files : List SegFile)
    (cb : Option (Nat → Nat → Except String Unit))
    (hok : (combine_audio_files cs files cb).ok = true) :
    (∀ f ∈ files, ∃ p, f.infoResult = Except.ok p) ∧
    (∀ f ∈ files, ∃ d, f.readResult = Except.ok d) ∧
    (∀ c, cb = some c → ∀ k, k * cs < files.length →
      c (k * cs) files.length = Except.ok ()) := by
  have hperm : (sortedSegs files).Perm files := List.perm_insertionSort nameLe files
  rcases hs : sortedSegs files with _ | ⟨f0, fs0⟩
  · simp [combine_audio_files, hs] at hok
  · rw [hs] at hperm
    simp only [combine_audio_files, hs] at hok
    rcases hp : pass1Go (f0 :: fs0) none 0 with e | ⟨osr, tot⟩
    · simp [hp] at hok
    · simp only [hp] at hok
      cases osr with
      | none => simp at hok
      | some sr =>
        by_cases hsr : sr = 0
        · simp [hsr] at hok
        · by_cases hcs0 : cs = 0
          · simp [if_neg hsr, hcs0] at hok
          · simp only [if_neg hsr, if_neg hcs0] at hok
            rcases hpp : pass2 (cs - 1) (f0 :: fs0).length cb (f0 :: fs0) 0 [] with ⟨b, o⟩
            rw [hpp] at hok
            have hb : b = true := hok
            subst hb
            rcases pass2_ok hpp with ⟨hout, hreads, hcbs⟩
            rcases pass1Go_ok_frames hp with ⟨htot, hinfos⟩
            refine ⟨?_, ?_, ?_⟩
            · intro g hg
              exact hinfos g (hperm.mem_iff.mpr hg)
            · intro g hg
              exact hreads g (hperm.mem_iff.mpr hg)
            · intro c hc k hk
              have hcs1 : cs - 1 + 1 = cs := by omega
              have hklt : k * (cs - 1 + 1) < (f0 :: fs0).length := by
                rw [hcs1, hperm.length_eq]
                exact hk
              have hcall := hcbs k hklt
              rw [hcs1, Nat.zero_add, hc] at hcall
              simp only [cbCall] at hcall
              rw [← hperm.length_eq]
              exact hcall

/-! ### Orchestrator lemmas -/

/-- Pointwise order on the three monotonic completion flags: every flag
already true stays true. -/
def flagsLe (a b : JobState) : Prop :=
  (a.extraction_done = true → b.extraction_done = true) ∧
  (a.generation_done = true → b.generation_done = true) ∧
  (a.combination_done = true → b.combination_done = true)

/-- The sequence of job records written to the state store by an
operation list, in order. -/
def savedJobs : List Op → List JobState
  | [] => []
  | Op.save j :: rest => j :: savedJobs rest
  | Op.load :: rest => savedJobs rest
  | Op.delete :: rest => savedJobs rest
  | Op.callExtractor :: rest => savedJobs rest
  | Op.callSynthesizer :: rest => savedJobs rest
  | Op.callCombiner :: rest => savedJobs rest

lemma savedJobs_append (a b : List Op) :
    savedJobs (a ++ b) = savedJobs a ++ savedJobs b := by
  induction a with
  | nil => rfl
  | cons op rest ih => cases op <;> simp [savedJobs, ih]

lemma getLast?_cons_eq (x : JobState) (l : List JobState) :
    (x :: l).getLast? = some (l.getLastD x) := by
  induction l generalizing x with
  | nil => simp
  | cons y ys ih => simp [List.getLast?_cons_cons, List.getLastD_cons, ih]

lemma chain_last_snoc (j0 : JobState) (saves : List JobState) (j : JobState)
    (hchain : List.Chain' flagsLe (j0 :: saves))
    (hle : flagsLe (saves.getLastD j0) j) :
    List.Chain' flagsLe (j0 :: (saves ++ [j])) ∧ (saves ++ [j]).getLastD j0 = j := by
  constructor
  · have hrw : (j0 :: (saves ++ [j])) = (j0 :: saves) ++ [j] := by simp
    rw [hrw, List.chain'_append]
    refine ⟨hchain, List.chain'_singleton j, ?_⟩
    intro x hx y hy
    rw [getLast?_cons_eq] at hx
    simp only [Option.mem_def, Option.some.injEq] at hx
    simp only [List.head?_cons, Option.mem_def, Option.some.injEq] at hy
    rw [← hx, ← hy]
    exact hle
  · simp [List.getLastD_concat]

/-- The invariant carried through the phases: the records saved so far
form a `flagsLe` chain starting at the loaded/created record, and the
most recently saved record (defaulting to the initial one) is the current
in-memory job. -/
def PdfInv (j0 : JobState) (s : PState) : Prop :=
  List.Chain' flagsLe (j0 :: savedJobs s.ops) ∧ (savedJobs s.ops).getLastD j0 = s.job

lemma phaseExtract_inv (env : Env) (skipE : Bool) (j0 : JobState) (s : PState)
    (hInv : PdfInv j0 s) :
    (∀ s', phaseExtract env skipE s = Except.ok s' →
      PdfInv j0 s' ∧ s'.job.retry_count = s.job.retry_count) ∧
    (∀ e s', phaseExtract env skipE s = Except.error (e, s') →
      PdfInv j0 s' ∧ s'.job.retry_count = s.job.retry_count) := by
  rcases hInv with ⟨hchain, hlast⟩
  by_cases hcond : (!s.job.extraction_done && !skipE) = true
  · have hle1 : flagsLe s.job { s.job with status := "extracting" } :=
      ⟨fun h => h, fun h => h, fun h => h⟩
    have hstep1 := chain_last_snoc j0 (savedJobs s.ops)
      { s.job with status := "extracting" } hchain (by rw [hlast]; exact hle1)
    cases hx : env.extractResult with
    | error e0 =>
      constructor
      · intro s' hok
        simp [phaseExtract, hcond, hx] at hok
      · intro e s' herr
        simp only [phaseExtract, hcond, hx, if_true] at herr
        rw [Except.error.injEq, Prod.mk.injEq] at herr
        rcases herr with ⟨he, hs'⟩
        subst hs'
        refine ⟨⟨?_, ?_⟩, rfl⟩
        · simp only [savedJobs_append, savedJobs]
          exact hstep1.1
        · simp only [savedJobs_append, savedJobs]
          exact hstep1.2
    | ok u =>
      constructor
      · intro s' hok
        simp only [phaseExtract, hcond, hx, if_true] at hok
        rw [Except.ok.injEq] at hok
        subst hok
        have hle2 : flagsLe { s.job with status := "extracting" }
            { s.job with status := "extracting", extraction_done := true } :=
          ⟨fun _ => rfl, fun h => h, fun h => h⟩
        have hstep2 := chain_last_snoc j0
          (savedJobs s.ops ++ [{ s.job with status := "extracting" }])
          { s.job with status := "extracting", extraction_done := true }
          hstep1.1 (by rw [hstep1.2]; exact hle2)
        refine ⟨⟨?_, ?_⟩, rfl⟩
        · simp only [savedJobs_append, savedJobs, List.append_assoc]
          simp only [savedJobs_append, savedJobs] at hstep2
          simp only [List.append_assoc] at hstep2
          exact hstep2.1
        · simp only [savedJobs_append, savedJobs]
          simp only [List.append_assoc] at hstep2
          simp [hstep2.2]
      · intro e s' herr
        simp [phaseExtract, hcond, hx] at herr
  · constructor
    · intro s' hok
      unfold phaseExtract at hok
      rw [if_neg hcond] at hok
      rw [Except.ok.injEq] at hok
      subst hok
      exact ⟨⟨hchain, hlast⟩, rfl⟩
    · intro e s' herr
      unfold phaseExtract at herr
      rw [if_neg hcond] at herr
      cases herr

lemma phaseGenerate_inv (env : Env) (skipG : Bool) (j0 : JobState) (s : PState)
    (hInv : PdfInv j0 s) :
    (∀ s', phaseGenerate env skipG s = Except.ok s' →
      PdfInv j0 s' ∧ s'.job.retry_count = s.job.retry_count) ∧
    (∀ e s', phaseGenerate env skipG s = Except.error (e, s') →
      PdfInv j0 s' ∧ s'.job.retry_count = s.job.retry_count) := by
  rcases hInv with ⟨hchain, hlast⟩
  by_cases hcond : (!s.job.generation_done && !skipG) = true
  · have hle1 : flagsLe s.job { s.job with status := "generating" } :=
      ⟨fun h => h, fun h => h, fun h => h⟩
    have hstep1 := chain_last_snoc j0 (savedJobs s.ops)
      { s.job with status := "generating" } hchain (by rw [hlast]; exact hle1)
    cases hx : env.generateResult with
    | error e0 =>
      constructor
      · intro s' hok
        simp [phaseGenerate, hcond, hx] at hok
      · intro e s' herr
        simp only [phaseGenerate, hcond, hx, if_true] at herr
        rw [Except.error.injEq, Prod.mk.injEq] at herr
        rcases herr with ⟨he, hs'⟩
        subst hs'
        refine ⟨⟨?_, ?_⟩, rfl⟩
        · simp only [savedJobs_append, savedJobs]
          exact hstep1.1
        · simp only [savedJobs_append, savedJobs]
          exact hstep1.2
    | ok u =>
      constructor
      · intro s' hok
        simp only [phaseGenerate, hcond, hx, if_true] at hok
        rw [Except.ok.injEq] at hok
        subst hok
        have hle2 : flagsLe { s.job with status := "generating" }
            { s.job with status := "generating", generation_done := true } :=
          ⟨fun h => h, fun _ => rfl, fun h => h⟩
        have hstep2 := chain_last_snoc j0
          (savedJobs s.ops ++ [{ s.job with status := "generating" }])
          { s.job with status := "generating", generation_done := true }
          hstep1.1 (by rw [hstep1.2]; exact hle2)
        refine ⟨⟨?_, ?_⟩, rfl⟩
        · simp only [savedJobs_append, savedJobs, List.append_assoc]
          simp only [savedJobs_append, savedJobs] at hstep2
          simp only [List.append_assoc] at hstep2
          exact hstep2.1
        · simp only [savedJobs_append, savedJobs]
          simp only [List.append_assoc] at hstep2
          simp [hstep2.2]
      · intro e s' herr
        simp [phaseGenerate, hcond, hx] at herr
  · constructor
    · intro s' hok
      unfold phaseGenerate at hok
      rw [if_neg hcond] at hok
      rw [Except.ok.injEq] at hok
      subst hok
      exact ⟨⟨hchain, hlast⟩, rfl⟩
    · intro e s' herr
      unfold phaseGenerate at herr
      rw [if_neg hcond] at herr
      cases herr

lemma phaseCombine_inv (env : Env) (j0 : JobState) (s : PState)
    (hInv : PdfInv j0 s) :
    (∀ s', phaseCombine env s = Except.ok s' →
      PdfInv j0 s' ∧ s'.job.retry_count = s.job.retry_count) ∧
    (∀ e s', phaseCombine env s = Except.error (e, s') →
      PdfInv j0 s' ∧ s'.job.retry_count = s.job.retry_count) := by
  rcases hInv with ⟨hchain, hlast⟩
  by_cases hcond : (!s.job.combination_done) = true
  · have hle1 : flagsLe s.job { s.job with status := "combining" } :=
      ⟨fun h => h, fun h => h, fun h => h⟩
    have hstep1 := chain_last_snoc j0 (savedJobs s.ops)
      { s.job with status := "combining" } hchain (by rw [hlast]; exact hle1)
    by_cases hcb : env.combineResult = false
    · constructor
      · intro s' hok
        simp [phaseCombine, hcond, hcb] at hok
      · intro e s' herr
        simp only [phaseCombine, hcond, hcb, if_true] at herr
        rw [Except.error.injEq, Prod.mk.injEq] at herr
        rcases herr with ⟨he, hs'⟩
        subst hs'
        refine ⟨⟨?_, ?_⟩, rfl⟩
        · simp only [savedJobs_append, savedJobs]
          exact hstep1.1
        · simp only [savedJobs_append, savedJobs]
          exact hstep1.2
    · constructor
      · intro s' hok
        simp only [phaseCombine, hcond, if_true] at hok
        rw [if_neg hcb] at hok
        rw [Except.ok.injEq] at hok
        subst hok
        have hle2 : flagsLe { s.job with status := "combining" }
            { s.job with
              status := "completed"
              combination_done := true
              completed_at := some env.nowEnd } :=
          ⟨fun h => h, fun h => h, fun _ => rfl⟩
        have hstep2 := chain_last_snoc j0
          (savedJobs s.ops ++ [{ s.job with status := "combining" }])
          { s.job with
            status := "completed"
            combination_done := true
            completed_at := some env.nowEnd }
          hstep1.1 (by rw [hstep1.2]; exact hle2)
        refine ⟨⟨?_, ?_⟩, rfl⟩
        · simp only [savedJobs_append, savedJobs, List.append_assoc]
          simp only [savedJobs_append, savedJobs] at hstep2
          simp only [List.append_assoc] at hstep2
          exact hstep2.1
        · simp only [savedJobs_append, savedJobs]
          simp only [List.append_assoc] at hstep2
          simp [hstep2.2]
      · intro e s' herr
        simp only [phaseCombine, hcond, if_true] at herr
        rw [if_neg hcb] at herr
        cases herr
  · constructor
    · intro s' hok
      unfold phaseCombine at hok
      rw [if_neg hcond] at hok
      rw [Except.ok.injEq] at hok
      subst hok
      exact ⟨⟨hchain, hlast⟩, rfl⟩
    · intro e s' herr
      unfold phaseCombine at herr
      rw [if_neg hcond] at herr
      cases herr

lemma process_pdf_true_eq (env : Env) (st : Option JobState) (rs se sg : Bool) :
    process_pdf env ⟨true, st⟩ rs se sg =
      { ok := true, world := ⟨true, st⟩, ops := [] } := rfl

lemma process_pdf_false_eq (env : Env) (st : Option JobState) (rs se sg : Bool) :
    process_pdf env ⟨false, st⟩ rs se sg =
      match phaseExtract env se ⟨initialJob env ⟨false, st⟩ rs, st, false, [Op.load]⟩ with
      | Except.error es => pdfFailure es
      | Except.ok s1 =>
        match phaseGenerate env sg s1 with
        | Except.error es => pdfFailure es
        | Except.ok s2 =>
          match phaseCombine env s2 with
          | Except.error es => pdfFailure es
          | Except.ok s3 =>
            { ok := true, world := { outputNonEmpty := s3.outNonEmpty, stored := none },
              ops := s3.ops ++ [Op.delete] } := rfl

lemma pdfFailure_inv (j0 : JobState) (e : String) (sE : PState)
    (hInv : PdfInv j0 sE) :
    List.Chain' flagsLe (j0 :: savedJobs (pdfFailure (e, sE)).ops) ∧
    (pdfFailure (e, sE)).world.stored = some (failedUpdate sE.job e) := by
  constructor
  · simp only [pdfFailure, savedJobs_append, savedJobs]
    have hsnoc := chain_last_snoc j0 (savedJobs sE.ops) (failedUpdate sE.job e)
      hInv.1 (by rw [hInv.2]; exact ⟨fun h => h, fun h => h, fun h => h⟩)
    exact hsnoc.1
  · simp [pdfFailure]

/-- Master invariant for one `process_pdf` run: the saved records form a
`flagsLe` chain from the loaded/created record, and a failing run leaves
exactly a `failedUpdate` of some intermediate job whose retry counter was
still the initial one. -/
lemma process_pdf_inv (env : Env) (w : World) (rs se sg : Bool) :
    List.Chain' flagsLe (initialJob env w rs :: savedJobs (process_pdf env w rs se sg).ops) ∧
    ((process_pdf env w rs se sg).ok = false →
      ∃ jr e, (process_pdf env w rs se sg).world.stored = some (failedUpdate jr e) ∧
        jr.retry_count = (initialJob env w rs).retry_count) := by
  rcases w with ⟨out, st⟩
  cases out with
  | true =>
    rw [process_pdf_true_eq]
    constructor
    · simp only [savedJobs]
      exact List.chain'_singleton _
    · intro hok
      simp at hok
  | false =>
    have hInv0 : PdfInv (initialJob env ⟨false, st⟩ rs)
        ⟨initialJob env ⟨false, st⟩ rs, st, false, [Op.load]⟩ := by
      constructor
      · simp only [savedJobs]
        exact List.chain'_singleton _
      · simp only [savedJobs]
        rfl
    rcases hx : phaseExtract env se ⟨initialJob env ⟨false, st⟩ rs, st, false, [Op.load]⟩
      with es | s1
    · rcases es with ⟨e1, sE⟩
      have hfacts := (phaseExtract_inv env se _ _ hInv0).2 e1 sE hx
      have hres : process_pdf env ⟨false, st⟩ rs se sg = pdfFailure (e1, sE) := by
        rw [process_pdf_false_eq]
        simp only [hx]
      rw [hres]
      have hfail := pdfFailure_inv _ e1 sE hfacts.1
      refine ⟨hfail.1, fun _ => ⟨sE.job, e1, hfail.2, ?_⟩⟩
      rw [hfacts.2]
    · have hInv1 := (phaseExtract_inv env se _ _ hInv0).1 s1 hx
      rcases hy : phaseGenerate env sg s1 with es | s2
      · rcases es with ⟨e1, sE⟩
        have hfacts := (phaseGenerate_inv env sg _ _ hInv1.1).2 e1 sE hy
        have hres : process_pdf env ⟨false, st⟩ rs se sg = pdfFailure (e1, sE) := by
          rw [process_pdf_false_eq]
          simp only [hx, hy]
        rw [hres]
        have hfail := pdfFailure_inv _ e1 sE hfacts.1
        refine ⟨hfail.1, fun _ => ⟨sE.job, e1, hfail.2, ?_⟩⟩
        rw [hfacts.2, hInv1.2]
      · have hInv2 := (phaseGenerate_inv env sg _ _ hInv1.1).1 s2 hy
        rcases hz : phaseCombine env s2 with es | s3
        · rcases es with ⟨e1, sE⟩
          have hfacts := (phaseCombine_inv env _ _ hInv2.1).2 e1 sE hz
          have hres : process_pdf env ⟨false, st⟩ rs se sg = pdfFailure (e1, sE) := by
            rw [process_pdf_false_eq]
            simp only [hx, hy, hz]
          rw [hres]
          have hfail := pdfFailure_inv _ e1 sE hfacts.1
          refine ⟨hfail.1, fun _ => ⟨sE.job, e1, hfail.2, ?_⟩⟩
          rw [hfacts.2, hInv2.2, hInv1.2]
        · have hInv3 := (phaseCombine_inv env _ _ hInv2.1).1 s3 hz
          have hres : process_pdf env ⟨false, st⟩ rs se sg =
              { ok := true, world := { outputNonEmpty := s3.outNonEmpty, stored := none },
                ops := s3.ops ++ [Op.delete] } := by
            rw [process_pdf_false_eq]
            simp only [hx, hy, hz]
          rw [hres]
          constructor
          · simp only [savedJobs_append, savedJobs, List.append_nil]
            exact hInv3.1.1
          · intro hok
            simp at hok

lemma phaseExtract_skip (env : Env) (skipE : Bool) (s : PState)
    (hcond : ¬(!s.job.extraction_done && !skipE) = true) :
    phaseExtract env skipE s = Except.ok s := by
  unfold phaseExtract
  rw [if_neg hcond]

lemma phaseGenerate_run_error (env : Env) (skipG : Bool) (s : PState) (e : String) (s' : PState)
    (hcond : (!s.job.generation_done && !skipG) = true)
    (h : phaseGenerate env skipG s = Except.error (e, s')) :
    s'.ops = s.ops ++ [Op.save { s.job with status := "generating" }, Op.callSynthesizer] := by
  rcases henv : env.generateResult with e0 | u
  · simp only [phaseGenerate, hcond, if_true, henv] at h
    rw [Except.error.injEq, Prod.mk.injEq] at h
    rw [← h.2]
  · simp only [phaseGenerate, hcond, if_true, henv] at h
    cases h

lemma phaseGenerate_run_ok (env : Env) (skipG : Bool) (s : PState) (s' : PState)
    (hcond : (!s.job.generation_done && !skipG) = true)
    (h : phaseGenerate env skipG s = Except.ok s') :
    s'.ops = s.ops ++ [Op.save { s.job with status := "generating" }, Op.callSynthesizer] ++
      [Op.save { s.job with status := "generating", generation_done := true }] := by
  rcases henv : env.generateResult with e0 | u
  · simp only [phaseGenerate, hcond, if_true, henv] at h
    cases h
  · simp only [phaseGenerate, hcond, if_true, henv] at h
    rw [Except.ok.injEq] at h
    rw [← h]

lemma phaseCombine_ops (env : Env) (s : PState) :
    (∀ s', phaseCombine env s = Except.ok s' → s'.ops = s.ops ∨
       s'.ops = s.ops ++ [Op.save { s.job with status := "combining" }, Op.callCombiner] ++
         [Op.save { s.job with
                    status := "completed"
                    combination_done := true
                    completed_at := some env.nowEnd }]) ∧
    (∀ e s', phaseCombine env s = Except.error (e, s') →
       s'.ops = s.ops ++ [Op.save { s.job with status := "combining" }, Op.callCombiner]) := by
  by_cases hcond : (!s.job.combination_done) = true
  · by_cases hcb : env.combineResult = false
    · constructor
      · intro s' hok
        simp [phaseCombine, hcond, hcb] at hok
      · intro e s' herr
        simp only [phaseCombine, hcond, hcb, if_true] at herr
        rw [Except.error.injEq, Prod.mk.injEq] at herr
        rw [← herr.2]
    · constructor
      · intro s' hok
        simp only [phaseCombine, hcond, if_true] at hok
        rw [if_neg hcb] at hok
        rw [Except.ok.injEq] at hok
        rw [← hok]
        right
        rfl
      · intro e s' herr
        simp only [phaseCombine, hcond, if_true] at herr
        rw [if_neg hcb] at herr
        cases herr
  · constructor
    · intro s' hok
      unfold phaseCombine at hok
      rw [if_neg hcond] at hok
      rw [Except.ok.injEq] at hok
      rw [← hok]
      left
      rfl
    · intro e s' herr
      unfold phaseCombine at herr
      rw [if_neg hcond] at herr
      cases herr

/-- Claim C1: resume-exactness. For every environment (any collaborator
outcomes), a job record loaded with `extraction_done = true` and
`generation_done = false`, re-invoked with resume enabled, the final
output absent, and no phase-skip toggles, never invokes the Extractor and
does invoke the Synthesizer. -/
theorem resume_exactness (env : Env) (j : JobState)
    (hje : j.extraction_done = true) (hjg : j.generation_done = false) :
    Op.callExtractor ∉ (process_pdf env ⟨false, some j⟩ true false false).ops ∧
    Op.callSynthesizer ∈ (process_pdf env ⟨false, some j⟩ true false false).ops := by
  have hj0 : initialJob env ⟨false, some j⟩ true = j := rfl
  have hpe := phaseExtract_skip env false (⟨j, some j, false, [Op.load]⟩ : PState)
    (by simp [hje])
  have hcondG :
      (!(⟨j, some j, false, [Op.load]⟩ : PState).job.generation_done && !false) = true := by
    simp [hjg]
  rcases hY : phaseGenerate env false ⟨j, some j, false, [Op.load]⟩ with ⟨e1, sE⟩ | s2
  · have hres : process_pdf env ⟨false, some j⟩ true false false = pdfFailure (e1, sE) := by
      rw [process_pdf_false_eq, hj0]
      simp only [hpe, hY]
    have hops := phaseGenerate_run_error env false _ e1 sE hcondG hY
    rw [hres]
    simp only [pdfFailure]
    rw [hops]
    constructor
    · intro hmem
      simp at hmem
    · simp
  · have hops := phaseGenerate_run_ok env false _ s2 hcondG hY
    rcases hZ : phaseCombine env s2 with ⟨e2, sC⟩ | s3
    · have hres : process_pdf env ⟨false, some j⟩ true false false = pdfFailure (e2, sC) := by
        rw [process_pdf_false_eq, hj0]
        simp only [hpe, hY, hZ]
      have hopsC := (phaseCombine_ops env s2).2 e2 sC hZ
      rw [hres]
      simp only [pdfFailure]
      rw [hopsC, hops]
      constructor
      · intro hmem
        simp at hmem
      · simp
    · have hres : process_pdf env ⟨false, some j⟩ true false false =
          { ok := true, world := { outputNonEmpty := s3.outNonEmpty, stored := none },
            ops := s3.ops ++ [Op.delete] } := by
        rw [process_pdf_false_eq, hj0]
        simp only [hpe, hY, hZ]
      rw [hres]
      rcases (phaseCombine_ops env s2).1 s3 hZ with hopsC | hopsC
      · rw [hopsC, hops]
        constructor
        · intro hmem
          simp at hmem
        · simp
      · rw [hopsC, hops]
        constructor
        · intro hmem
          simp at hmem
        · simp

/-- Claim C6: early-completion shortcut. When the final output exists with
non-zero size, `process_pdf` returns success with no store operation and
no collaborator invocation (empty operation list), leaves the world
untouched, and a second run against the same input again returns success
with zero work. -/
theorem shortcut_no_work (env : Env) (w : World) (rs se sg : Bool)
    (hw : w.outputNonEmpty = true) :
    (process_pdf env w rs se sg).ok = true ∧
    (process_pdf env w rs se sg).ops = [] ∧
    (process_pdf env w rs se sg).world = w ∧
    ∀ env2 rs2 se2 sg2,
      (process_pdf env2 (process_pdf env w rs se sg).world rs2 se2 sg2).ok = true ∧
      (process_pdf env2 (process_pdf env w rs se sg).world rs2 se2 sg2).ops = [] := by
  rcases w with ⟨out, st⟩
  have hout : out = true := hw
  subst hout
  exact ⟨rfl, rfl, rfl, fun _ _ _ _ => ⟨rfl, rfl⟩⟩

/-- Claim C9: monotonic completion flags. Within one orchestrator run the
initial record followed by every record saved to the store forms a
`flagsLe` chain (a completion flag once true is never reset by any later
save), and a phase failure persists exactly a `failedUpdate` of the job at
the raise point, whose three completion flags are unchanged. -/
theorem flags_monotone (env : Env) (w : World) (rs se sg : Bool) :
    List.Chain' flagsLe
      (initialJob env w rs :: savedJobs (process_pdf env w rs se sg).ops) ∧
    ((process_pdf env w rs se sg).ok = false →
      ∃ jr e, (process_pdf env w rs se sg).world.stored = some (failedUpdate jr e) ∧
        (failedUpdate jr e).extraction_done = jr.extraction_done ∧
        (failedUpdate jr e).generation_done = jr.generation_done ∧
        (failedUpdate jr e).combination_done = jr.combination_done) := by
  rcases process_pdf_inv env w rs se sg with ⟨hchain, hfail⟩
  refine ⟨hchain, fun hok => ?_⟩
  rcases hfail hok with ⟨jr, e, hstored, _⟩
  exact ⟨jr, e, hstored, rfl, rfl, rfl⟩

/-- Three consecutive `process_pdf` invocations on the same input with
resume enabled, starting from no prior record, threading the world
through. -/
def threeRuns (env1 env2 env3 : Env) (se1 sg1 se2 sg2 se3 sg3 : Bool) :
    PdfResult × PdfResult × PdfResult :=
  let r1 := process_pdf env1 ⟨false, none⟩ true se1 sg1
  let r2 := process_pdf env2 r1.world true se2 sg2
  let r3 := process_pdf env3 r2.world true se3 sg3
  (r1, r2, r3)

/-- Claim C5: retry bookkeeping. Any phase failure persists a record with
status failed, the error text stored, and the retry counter incremented
from the loaded record, and the run returns failure (`ok = false`) rather
than re-raising; consequently three consecutive failed invocations with
resume enabled leave persisted records with retry counts 1, 2 and 3, the
last with status failed and an error recorded. -/
theorem retry_bookkeeping (env1 env2 env3 : Env) (se1 sg1 se2 sg2 se3 sg3 : Bool)
    (h1 : (threeRuns env1 env2 env3 se1 sg1 se2 sg2 se3 sg3).1.ok = false)
    (h2 : (threeRuns env1 env2 env3 se1 sg1 se2 sg2 se3 sg3).2.1.ok = false)
    (h3 : (threeRuns env1 env2 env3 se1 sg1 se2 sg2 se3 sg3).2.2.ok = false) :
    (∃ j1, (threeRuns env1 env2 env3 se1 sg1 se2 sg2 se3 sg3).1.world.stored = some j1 ∧
      j1.retry_count = 1 ∧ j1.status = "failed" ∧ j1.error.isSome = true) ∧
    (∃ j2, (threeRuns env1 env2 env3 se1 sg1 se2 sg2 se3 sg3).2.1.world.stored = some j2 ∧
      j2.retry_count = 2 ∧ j2.status = "failed" ∧ j2.error.isSome = true) ∧
    (∃ j3, (threeRuns env1 env2 env3 se1 sg1 se2 sg2 se3 sg3).2.2.world.stored = some j3 ∧
      j3.retry_count = 3 ∧ j3.status = "failed" ∧ j3.error.isSome = true) := by
  have hv1 := (process_pdf_inv env1 ⟨false, none⟩ true se1 sg1).2 h1
  rcases hv1 with ⟨jr1, e1, hs1, hr1⟩
  have hretry0 : jr1.retry_count = 0 := by rw [hr1]; rfl
  have hj1 : (failedUpdate jr1 e1).retry_count = 1 := by
    simp [failedUpdate, hretry0]
  have hv2 := (process_pdf_inv env2 (process_pdf env1 ⟨false, none⟩ true se1 sg1).world
    true se2 sg2).2 h2
  rcases hv2 with ⟨jr2, e2, hs2, hr2⟩
  have hinit2 : initialJob env2 (process_pdf env1 ⟨false, none⟩ true se1 sg1).world true =
      failedUpdate jr1 e1 := by
    simp [initialJob, hs1]
  have hj2 : (failedUpdate jr2 e2).retry_count = 2 := by
    have : jr2.retry_count = 1 := by rw [hr2, hinit2]; exact hj1
    simp [failedUpdate, this]
  have hv3 := (process_pdf_inv env3
    (process_pdf env2 (process_pdf env1 ⟨false, none⟩ true se1 sg1).world true se2 sg2).world
    true se3 sg3).2 h3
  rcases hv3 with ⟨jr3, e3, hs3, hr3⟩
  have hinit3 : initialJob env3
      (process_pdf env2 (process_pdf env1 ⟨false, none⟩ true se1 sg1).world true se2 sg2).world
      true = failedUpdate jr2 e2 := by
    simp [initialJob, hs2]
  have hj3 : (failedUpdate jr3 e3).retry_count = 3 := by
    have : jr3.retry_count = 2 := by rw [hr3, hinit3]; exact hj2
    simp [failedUpdate, this]
  exact ⟨⟨failedUpdate jr1 e1, hs1, hj1, rfl, rfl⟩,
         ⟨failedUpdate jr2 e2, hs2, hj2, rfl, rfl⟩,
         ⟨failedUpdate jr3 e3, hs3, hj3, rfl, rfl⟩⟩

/-- Claim C10: serialization round-trip. `from_dict ∘ to_dict` is the
identity on job records (all fields, including flags, timestamps, error
text and retry count), so a record saved by the state store and reloaded
unchanged reproduces the original record exactly. -/
theorem jobstate_roundtrip (store : StateStore) (jobId : String) (j : JobState) :
    JobState.from_dict (JobState.to_dict j) = some j ∧
    load_state (save_state store jobId j) jobId = some j := by
  have hrt : JobState.from_dict (JobState.to_dict j) = some j := by
    rcases j with ⟨ip, op, stt, sa, ca, er, ed, gd, cd, rc⟩
    cases sa <;> cases ca <;> cases er <;> rfl
  refine ⟨hrt, ?_⟩
  show (match List.lookup jobId ((jobId, j.to_dict) :: store) with
        | some d => JobState.from_dict d
        | none => none) = some j
  rw [List.lookup_cons_self]
  exact hrt

/-! ### Batch runner lemmas -/

/-- Whether an item's outcome counts as completed: the orchestrator
returned `True`. -/
def itemOk : Except String Bool → Bool
  | Except.ok true => true
  | Except.ok false => false
  | Except.error _ => false

/-- Spec-side recount of the items the batch loop invokes before
returning: all of them under continue-on-error, or everything up to and
including the first failure under stop-on-error. -/
def specProcessed (cont : Bool) : List (Except String Bool) → Nat
  | [] => 0
  | item :: rest =>
    if itemOk item then 1 + specProcessed cont rest
    else if cont then 1 + specProcessed cont rest else 1

/-- Spec-side recount of the completed items among those invoked. -/
def specCompleted (cont : Bool) : List (Except String Bool) → Nat
  | [] => 0
  | item :: rest =>
    if itemOk item then 1 + specCompleted cont rest
    else if cont then specCompleted cont rest else 0

/-- Spec-side recount of the failed items among those invoked. -/
def specFailed (cont : Bool) : List (Except String Bool) → Nat
  | [] => 0
  | item :: rest =>
    if itemOk item then specFailed cont rest
    else if cont then 1 + specFailed cont rest else 1

lemma batchLoop_eq (cont : Bool) (l : List (Except String Bool)) (c f p : Nat) :
    batchLoop cont l c f p =
      (c + specCompleted cont l, f + specFailed cont l, p + specProcessed cont l) := by
  induction l generalizing c f p with
  | nil => simp [batchLoop, specCompleted, specFailed, specProcessed]
  | cons item rest ih =>
    cases item with
    | error e =>
      simp only [batchLoop, specCompleted, specFailed, specProcessed, itemOk]
      cases cont <;> simp [ih, Prod.ext_iff] <;> omega
    | ok b =>
      cases b with
      | false =>
        simp only [batchLoop, specCompleted, specFailed, specProcessed, itemOk]
        cases cont <;> simp [ih, Prod.ext_iff] <;> omega
      | true =>
        simp only [batchLoop, specCompleted, specFailed, specProcessed, itemOk]
        simp [ih, Prod.ext_iff]
        omega

lemma spec_counts_sum (cont : Bool) (l : List (Except String Bool)) :
    specCompleted cont l + specFailed cont l = specProcessed cont l := by
  induction l with
  | nil => rfl
  | cons item rest ih =>
    simp only [specCompleted, specFailed, specProcessed]
    by_cases hi : itemOk item = true <;> cases cont <;> simp [hi] <;> omega

lemma spec_processed_le (cont : Bool) (l : List (Except String Bool)) :
    specProcessed cont l ≤ l.length := by
  induction l with
  | nil => simp [specProcessed]
  | cons item rest ih =>
    simp only [specProcessed, List.length_cons]
    by_cases hi : itemOk item = true <;> cases cont <;> simp [hi] <;> omega

/-- Claim C8 (amended): for every non-empty list of items the batch runner
returns (never raises) the aggregate statistics dictionary — total,
completed, failed, skipped, start/end timestamps — together with the
number of items invoked; completed and failed partition the invoked
items, at most all items are invoked, and with continue-on-error every
item is invoked. The success rate appears only in the log, not in the
returned dictionary, and on the empty list the summary's success-rate
computation divides by zero and raises. -/
theorem batch_contract (items : List (Except String Bool)) (cont : Bool) (t1 t2 : String)
    (hne : items ≠ []) :
    process_batch items cont t1 t2 =
      Except.ok ({ total := items.length, completed := specCompleted cont items,
                   failed := specFailed cont items, skipped := 0,
                   started_at := t1, completed_at := t2 }, specProcessed cont items) ∧
    specCompleted cont items + specFailed cont items = specProcessed cont items ∧
    specProcessed cont items ≤ items.length := by
  refine ⟨?_, spec_counts_sum cont items, spec_processed_le cont items⟩
  have hlen : ¬ items.length = 0 := by
    intro h0
    exact hne (List.length_eq_zero.mp h0)
  simp only [process_batch, batchLoop_eq, Nat.zero_add]
  rw [if_neg hlen]

/-- Claim C8 counterexample: on the empty input list the batch runner
raises (`ZeroDivisionError` from the success-rate line of the summary)
instead of returning statistics. -/
theorem batch_empty_raises :
    process_batch [] true "t1" "t2" = Except.error "ZeroDivisionError: division by zero" := rfl

/-- A `process_pdf` environment in which every collaborator succeeds. -/
def envOK : Env :=
  { inputPath := "/books/alpha.pdf", outputPath := "/books/alpha.wav",
    extractResult := Except.ok (), generateResult := Except.ok (),
    combineResult := true, combineLeftOutput := false,
    nowStart := "2024-01-01T00:00:00", nowEnd := "2024-01-01T01:00:00" }

/-- The same environment except that the Extractor raises. -/
def envExtractRaises : Env :=
  { envOK with extractResult := Except.error "Test error" }

/-- A fresh input: no output artifact, no persisted record. -/
def wFresh : World := { outputNonEmpty := false, stored := none }

/-- The 3-item batch of claim C7: items 1 and 3 process cleanly, item 2's
extraction raises (caught by the orchestrator, which reports `False`). -/
def demoItems : List (Except String Bool) :=
  [Except.ok (process_pdf envOK wFresh true false false).ok,
   Except.ok (process_pdf envExtractRaises wFresh true false false).ok,
   Except.ok (process_pdf envOK wFresh true false false).ok]

/-- Claim C7 counterexample: in the 3-item batch where item 2's extraction
raises, stop-on-error yields statistics with `completed = 1` (item 1,
processed before the failure, counts as completed), not `completed = 0`
as the claim states. -/
theorem batch_stop_counterexample :
    process_batch demoItems false "s" "e" =
      Except.ok ({ total := 3, completed := 1, failed := 1, skipped := 0,
                   started_at := "s", completed_at := "e" }, 2) ∧
    ({ total := 3, completed := 1, failed := 1, skipped := 0,
       started_at := "s", completed_at := "e" } : BatchStats).completed ≠ 0 :=
  ⟨rfl, by decide⟩

/-- Claim C7 (amended): for the 3-item batch whose item 2's extraction
raises, continue-on-error yields {total 3, completed 2, failed 1} with
all 3 items invoked; stop-on-error yields {total 3, completed 1,
failed 1} (the item before the failure counts as completed) and halts at
item 2 — only 2 items are invoked, item 3 never. -/
theorem batch_failure_containment :
    (process_pdf envOK wFresh true false false).ok = true ∧
    (process_pdf envExtractRaises wFresh true false false).ok = false ∧
    Op.callExtractor ∈ (process_pdf envExtractRaises wFresh true false false).ops ∧
    process_batch demoItems true "s" "e" =
      Except.ok ({ total := 3, completed := 2, failed := 1, skipped := 0,
                   started_at := "s", completed_at := "e" }, 3) ∧
    process_batch demoItems false "s" "e" =
      Except.ok ({ total := 3, completed := 1, failed := 1, skipped := 0,
                   started_at := "s", completed_at := "e" }, 2) :=
  ⟨rfl, rfl, by decide, rfl, rfl⟩

/-- A 2-frame segment named "001" at 24000 Hz. -/
def segA : SegFile :=
  { name := [48, 48, 49], infoResult := Except.ok (24000, 2),
    readResult := Except.ok [1, 2] }

/-- A 1-frame segment named "002" at 24000 Hz. -/
def segB : SegFile :=
  { name := [48, 48, 50], infoResult := Except.ok (24000, 1),
    readResult := Except.ok [3] }

/-- A segment named "002" whose sample rate (22050 Hz) differs from
`segA`'s. -/
def segMismatch : SegFile :=
  { name := [48, 48, 50], infoResult := Except.ok (22050, 1),
    readResult := Except.ok [3] }

/-- A progress callback that never raises. -/
def cbOk : Nat → Nat → Except String Unit := fun _ _ => Except.ok ()

/-- A resumable record: extraction already done, generation not yet. -/
def jobResume : JobState := { freshJob envOK with extraction_done := true }

/-- A world whose final output already exists non-empty. -/
def wDone : World := { outputNonEmpty := true, stored := none }

theorem resume_exactness_witness :
    Op.callExtractor ∉ (process_pdf envOK ⟨false, some jobResume⟩ true false false).ops ∧
    Op.callSynthesizer ∈ (process_pdf envOK ⟨false, some jobResume⟩ true false false).ops :=
  resume_exactness envOK jobResume rfl rfl

theorem combine_success_frame_sum_witness :
    (combine_audio_files 2 [segB, segA] none).output =
      some ((sortedSegs [segB, segA]).flatMap readD) ∧
    ((sortedSegs [segB, segA]).flatMap readD).length = ([segB, segA].map framesD).sum :=
  combine_success_frame_sum 2 [segB, segA] none 24000 (by omega)
    (by
      intro f hf
      rcases List.mem_cons.mp hf with rfl | hf2
      · exact ⟨[3], rfl, rfl⟩
      · rcases List.mem_cons.mp hf2 with rfl | hf3
        · exact ⟨[1, 2], rfl, rfl⟩
        · cases hf3)
    (by
      simp [combine_audio_files, sortedSegs, pass1Go, pass2, readGroup, cbCall, segA, segB,
            List.insertionSort, nameLe, lexLe, List.orderedInsert])

theorem combine_validation_guard_witness :
    combine_audio_files 50 ([] : List SegFile) none = { ok := false, output := none } ∧
    combine_audio_files 50 [segA, segMismatch] none = { ok := false, output := none } :=
  ⟨(combine_validation_guard 50 [] none).1 rfl,
   (combine_validation_guard 50 [segA, segMismatch] none).2
     segA (List.mem_cons_self _ _)
     segMismatch (List.mem_cons_of_mem _ (List.mem_cons_self _ _))
     24000 2 22050 1 rfl rfl (by decide)⟩

theorem combine_failure_contract_witness :
    (combine_audio_files 2 [segB, segA] (some cbOk)).ok = true ∧
    cbOk (0 * 2) ([segB, segA] : List SegFile).length = Except.ok () := by
  have hok : (combine_audio_files 2 [segB, segA] (some cbOk)).ok = true := by
    simp [combine_audio_files, sortedSegs, pass1Go, pass2, readGroup, cbCall, segA, segB,
          cbOk, List.insertionSort, nameLe, lexLe, List.orderedInsert]
  exact ⟨hok, (combine_failure_contract 2 [segB, segA] (some cbOk) hok).2.2 cbOk rfl 0 (by decide)⟩

theorem retry_bookkeeping_witness :
    (threeRuns envExtractRaises envExtractRaises envExtractRaises
      false false false false false false).1.ok = false ∧
    (threeRuns envExtractRaises envExtractRaises envExtractRaises
      false false false false false false).2.1.ok = false ∧
    (threeRuns envExtractRaises envExtractRaises envExtractRaises
      false false false false false false).2.2.ok = false ∧
    (∃ j3, (threeRuns envExtractRaises envExtractRaises envExtractRaises
        false false false false false false).2.2.world.stored = some j3 ∧
      j3.retry_count = 3 ∧ j3.status = "failed" ∧ j3.error.isSome = true) :=
  ⟨rfl, rfl, rfl,
   (retry_bookkeeping envExtractRaises envExtractRaises envExtractRaises
     false false false false false false rfl rfl rfl).2.2⟩

theorem shortcut_no_work_witness :
    (process_pdf envOK wDone true false false).ok = true ∧
    (process_pdf envOK wDone true false false).ops = [] ∧
    (process_pdf envOK wDone true false false).world = wDone ∧
    (process_pdf envExtractRaises (process_pdf envOK wDone true false false).world
      true false false).ok = true := by
  obtain ⟨h1, h2, h3, h4⟩ := shortcut_no_work envOK wDone true false false rfl
  exact ⟨h1, h2, h3, (h4 envExtractRaises true false false).1⟩

theorem flags_monotone_witness :
    List.Chain' flagsLe
      (initialJob envExtractRaises wFresh true ::
        savedJobs (process_pdf envExtractRaises wFresh true false false).ops) ∧
    (∃ jr e, (process_pdf envExtractRaises wFresh true false false).world.stored =
        some (failedUpdate jr e) ∧
      (failedUpdate jr e).extraction_done = jr.extraction_done ∧
      (failedUpdate jr e).generation_done = jr.generation_done ∧
      (failedUpdate jr e).combination_done = jr.combination_done) := by
  obtain ⟨h1, h2⟩ := flags_monotone envExtractRaises wFresh true false false
  exact ⟨h1, h2 rfl⟩

theorem batch_contract_witness :
    ([Except.error "boom"] : List (Except String Bool)) ≠ [] ∧
    process_batch [Except.error "boom"] true "a" "b" =
      Except.ok ({ total := 1, completed := 0, failed := 1, skipped := 0,
                   started_at := "a", completed_at := "b" }, 1) :=
  ⟨by decide, (batch_contract [Except.error "boom"] true "a" "b" (by decide)).1⟩
